import Mathlib

/- Batteries marks the `Rat` field operations `@[irreducible]` for
elaboration performance; restore the default so concrete rational
computations reduce definitionally (the kernel ignores the reducibility
hint either way). -/
set_option allowUnsafeReducibility true in
attribute [semireducible] Rat.add Rat.mul Rat.inv Rat.sub

/-!
Verification of the hierarchical mass allocation & emission-factor engine
(`src/carbonCalculator.ts`, with the sibling implementations in
`src/donationBreakdown.ts` and `src/donationBuckets.ts`).

The TypeScript computation is pure once the database reads are abstracted:
every table lookup is modelled as a field of `DataEnv`.  JavaScript numbers
are modelled as `ℚ` (the algorithm only adds, multiplies and divides
finitely many finite inputs); a stored value that `toNum` rejects
(`null`/`undefined`/non-finite) is modelled as `none` of an `Option ℚ`.
A thrown `Error` is modelled as the `Except` error case, carrying the same
identifying data that the source interpolates into the message string.
-/

/-- `MIN_SHARE_FRAC` from carbonCalculator.ts: ignore ingredient shares
below 10% of the component. -/
def MIN_SHARE_FRAC : ℚ := 10 / 100

/-- `PLATE_SHARE_NORMALIZE_EPS`: normalize plate shares if their sum is
within this distance of 1. -/
def PLATE_SHARE_NORMALIZE_EPS : ℚ := 3 / 100

/-- `ING_SHARE_NORMALIZE_EPS`: normalize ingredient shares if their sum is
within this many percentage points of 100. -/
def ING_SHARE_NORMALIZE_EPS : ℚ := 5

/-- `ING_SHARE_MAX_OVER_EPS`: hard error if ingredient shares exceed 100%
by more than this. -/
def ING_SHARE_MAX_OVER_EPS : ℚ := 1 / 2

/-- The literal `1e-9` threshold used for dropping a tiny unallocated
remainder in `computeComponentCarbon`. -/
def UNALLOC_EPS : ℚ := 1 / 1000000000

/-- `clamp` from carbonCalculator.ts: `Math.max(lo, Math.min(hi, n))`. -/
def clampQ (n lo hi : ℚ) : ℚ := max lo (min hi n)

/-! ### `normalizeCoreFromName`

The source normalizes a raw name via a pipeline of regex replacements.
We model it character-exactly for the alphabet that actually occurs in the
data (ASCII plus ä/ö/å, the letters the source itself special-cases);
`\b`, `\d`, `\s` and `\w` are the ASCII classes JavaScript uses. -/

/-- JavaScript `\w` (word character): `[A-Za-z0-9_]`. -/
def isWordChar (c : Char) : Bool := c.isAlphanum || c == '_'

/-- Character-wise `toLowerCase()` (ASCII, which covers every
`weight_state` value); equals `String.toLower`, but stated over the
character list so it reduces definitionally. -/
def lowerString (s : String) : String := ⟨s.toList.map Char.toLower⟩

/-- `trim()` over the character list (strip leading/trailing whitespace). -/
def trimChars (l : List Char) : List Char :=
  ((l.dropWhile Char.isWhitespace).reverse.dropWhile Char.isWhitespace).reverse

/-- `toUpperCase()` on the modelled alphabet (ASCII plus ä/ö/å). -/
def jsUpper (c : Char) : Char :=
  if c == 'ä' then 'Ä' else if c == 'ö' then 'Ö' else if c == 'å' then 'Å' else c.toUpper

/-- The `Ä→A`, `Ö→O`, `Å→A` replacements. -/
def foldScand (c : Char) : Char :=
  if c == 'Ä' then 'A' else if c == 'Ö' then 'O' else if c == 'Å' then 'A' else c

/-- After a match ending in a word character, the trailing `\b` holds iff
the next character is absent or not a word character. -/
def boundaryOkAfterWord : List Char → Bool
  | [] => true
  | c :: _ => !(isWordChar c)

/-- Ordered alternation `(A|B|...)\b` for all-letter alternatives: try each
alternative in order, as the JavaScript regex engine does; an alternative
that matches as a prefix but fails the trailing `\b` lets the next one
try. -/
def matchAlts : List (List Char) → List Char → Option (List Char)
  | [], _ => none
  | u :: us, l =>
    if u.isPrefixOf l then
      let rest := l.drop u.length
      if boundaryOkAfterWord rest then some rest else matchAlts us l
    else matchAlts us l

/-- The measurement units of the first replacement regex, in the source's
alternation order `(KG|G|L|DL|CL|ML)`. -/
def unitAlts : List (List Char) :=
  [['K', 'G'], ['G'], ['L'], ['D', 'L'], ['C', 'L'], ['M', 'L']]

/-- The stop words of the third replacement regex, in the source's
alternation order `(RTU|KPA|LTN|TANKO)`. -/
def stopwordAlts : List (List Char) :=
  [['R', 'T', 'U'], ['K', 'P', 'A'], ['L', 'T', 'N'], ['T', 'A', 'N', 'K', 'O']]

/-- Matcher for `\b\d+[.,]?\d*\s*(KG|G|L|DL|CL|ML)\b` at the head of `l`
(`prevW` says whether the previous original character was a word character,
so `¬prevW` is the leading `\b`).  Returns `(last matched char is a word
char, rest)`.  Backtracking note: giving digits back to `\d+`/`\d*` or
spaces back to `\s*` can never help (a unit letter matches neither), so the
only choice point mirrored is `[.,]?` present vs. absent. -/
def matchQtyUnit (prevW : Bool) (l : List Char) : Option (Bool × List Char) :=
  if prevW then none
  else
    let p := l.span Char.isDigit
    if p.1.isEmpty then none
    else
      let sepCase :=
        match p.2 with
        | c :: r2 =>
          if c == '.' || c == ',' then
            let q := r2.span Char.isDigit
            matchAlts unitAlts (q.2.dropWhile Char.isWhitespace)
          else none
        | [] => none
      match sepCase with
      | some rest => some (true, rest)
      | none =>
        match matchAlts unitAlts (p.2.dropWhile Char.isWhitespace) with
        | some rest => some (true, rest)
        | none => none

/-- Matcher for `\b\d+[.,]?\d*\b` at the head of `l`.  The separator-present
alternative is tried first with a greedy `\d*`; if its trailing `\b` fails,
the match backtracks to ending right after the separator (boundary needs a
word character next), then to dropping the separator entirely (boundary
after a digit followed by the non-word separator always holds). -/
def matchNum (prevW : Bool) (l : List Char) : Option (Bool × List Char) :=
  if prevW then none
  else
    let p := l.span Char.isDigit
    if p.1.isEmpty then none
    else
      match p.2 with
      | c :: r2 =>
        if c == '.' || c == ',' then
          let q := r2.span Char.isDigit
          if !q.1.isEmpty && boundaryOkAfterWord q.2 then some (true, q.2)
          else
            match r2 with
            | d :: _ =>
              if isWordChar d then some (false, r2)
              else if boundaryOkAfterWord p.2 then some (true, p.2) else none
            | [] => if boundaryOkAfterWord p.2 then some (true, p.2) else none
        else if boundaryOkAfterWord p.2 then some (true, p.2) else none
      | [] => some (true, [])

/-- Matcher for `\b(RTU|KPA|LTN|TANKO)\b` at the head of `l`. -/
def matchStopword (prevW : Bool) (l : List Char) : Option (Bool × List Char) :=
  if prevW then none
  else
    match matchAlts stopwordAlts l with
    | some rest => some (true, rest)
    | none => none

/-- One global-replace pass: scan left to right over the original
characters, replacing every match by a single space and resuming after it,
tracking whether the previous original character is a word character (for
`\b`).  `fuel` only needs to exceed the list length (every step consumes at
least one character). -/
def replacePassAux (m : Bool → List Char → Option (Bool × List Char)) :
    Nat → Bool → List Char → List Char
  | 0, _, l => l
  | _, _, [] => []
  | fuel + 1, prevW, c :: cs =>
    match m prevW (c :: cs) with
    | some (lastW, rest) => ' ' :: replacePassAux m fuel lastW rest
    | none => c :: replacePassAux m fuel (isWordChar c) cs

/-- `[A-Z0-9]`, the characters the final regex keeps. -/
def isCoreChar (c : Char) : Bool := ('A' ≤ c && c ≤ 'Z') || ('0' ≤ c && c ≤ '9')

/-- `replace(/[^A-Z0-9]+/g, "_")`: collapse every run of non-core
characters into one underscore (this also subsumes the source's following
`replace(/_+/g, "_")`, which is a no-op after this pass). -/
def collapseNonCoreAux : Bool → List Char → List Char
  | _, [] => []
  | inRun, c :: cs =>
    if isCoreChar c then c :: collapseNonCoreAux false cs
    else if inRun then collapseNonCoreAux true cs
    else '_' :: collapseNonCoreAux true cs

/-- `replace(/^_+|_+$/g, "")`. -/
def stripUnderscores (l : List Char) : List Char :=
  ((l.dropWhile (· == '_')).reverse.dropWhile (· == '_')).reverse

/-- `normalizeCoreFromName` from carbonCalculator.ts (identical copy in
donationBreakdown.ts). -/
def normalizeCoreFromName (nameRaw : String) : String :=
  let l0 := ((trimChars nameRaw.toList).map jsUpper).map foldScand
  let l1 := replacePassAux matchQtyUnit l0.length false l0
  let l2 := replacePassAux matchNum l1.length false l1
  let l3 := replacePassAux matchStopword l2.length false l2
  let l4 := stripUnderscores (collapseNonCoreAux false l3)
  if l4.isEmpty then "UNKNOWN" else ⟨l4⟩

/-! ### Data model (read-only rows consumed by the engine) -/

/-- A `component_ingredients` row, as selected by `computeComponentCarbon`.
`share_of_component` is `none` for SQL `NULL` or a non-finite stored value
(`toNum` returns `null` for both). -/
structure IngredientRow where
  ingredient_core : String
  share_of_component : Option ℚ
  is_water : Bool
  is_salt : Bool
deriving DecidableEq

/-- An active `ingredient_mappings` row (already filtered to the configured
`source_system`). -/
structure MappingRow where
  ingredient_core : String
  luke_foodid : Option Nat
  weight_state : Option String
  yield_cooked_per_raw : Option ℚ
  co2_override_per_kg : Option ℚ
deriving DecidableEq

/-- A `luke_foods` reference row. -/
structure LukeFoodRow where
  foodid : Nat
  kg_co2e_per_kg : Option ℚ
  g_co2e_per_100g : Option ℚ
deriving DecidableEq

/-- A `dish_components` row as used for plate-share allocation. -/
structure DishComponentRow where
  id : Nat
  plate_share : Option ℚ
deriving DecidableEq

/-- The `dish_components` projection (`id, name_raw`) loaded by the
component-name fallback. -/
structure ComponentNameRow where
  name_raw : Option String
deriving DecidableEq

/-- A `donations` row.  `donated_weight_kg` is `none` when the stored value
is non-numeric/non-finite (the source then throws "invalid
donated_weight_kg", as it does for a non-positive weight). -/
structure DonationRow where
  dish_id : Option Nat
  component_id : Option Nat
  donated_weight_kg : Option ℚ
deriving DecidableEq

/-- The database, abstracted: each field models one `select` the engine
performs.  `mappings` returns the unique active mapping for a core within
the configured `source_system` (at most one exists per (namespace, core)),
matching both the batched `.in(cores)` query and the `.limit(1)` fallback
query. -/
structure DataEnv where
  donations : Nat → Option DonationRow
  dishComponents : Nat → List DishComponentRow
  componentName : Nat → Option ComponentNameRow
  componentIngredients : Nat → List IngredientRow
  mappings : String → Option MappingRow
  foods : Nat → Option LukeFoodRow

/-- The four running totals a component computation produces. -/
structure CarbonTotals where
  co2eKg : ℚ
  unmappedKg : ℚ
  mappedKg : ℚ
  ignoredKg : ℚ
deriving DecidableEq

/-- The data-integrity errors the engine throws, carrying the identifying
values the source interpolates into the thrown message. -/
inductive CalcError where
  | donationNotFound (donationId : Nat)
  | invalidWeight (donationId : Nat)
  | noTarget (donationId : Nat)
  | ingredientShareSumExceeds (componentId : Nat) (sumPct : ℚ)
  | plateShareSumExceeds (dishId : Nat) (sumFinal : ℚ)
deriving DecidableEq

/-! ### Emission factor resolution and leaf classification -/

/-- `getCo2FactorKgPerKg` from carbonCalculator.ts (the same function is
`resolveFactor` in donationBreakdown.ts, which additionally labels the
source): override wins, then LUKE kg/kg, then g/100g converted by `* 0.01`. -/
def getCo2FactorKgPerKg (mapping : Option MappingRow) (food : Option LukeFoodRow) :
    Option ℚ :=
  match mapping.bind (·.co2_override_per_kg) with
  | some ov => some ov
  | none =>
    match food.bind (·.kg_co2e_per_kg) with
    | some kg => some kg
    | none =>
      match food.bind (·.g_co2e_per_100g) with
      | some g => some (g * (1 / 100))
      | none => none

/-- `(mapping.weight_state || "ignore").toLowerCase()`: SQL `NULL` and the
empty string (both falsy in JavaScript) default to `"ignore"`. -/
def effWeightState (m : MappingRow) : String :=
  lowerString
    (match m.weight_state with
     | none => "ignore"
     | some s => if s = "" then "ignore" else s)

/-- `computeComponentFallbackCarbonFromName`: when a component has no
ingredient rows (or no usable shares), map the whole component mass through
a mapping keyed by its normalized name. -/
def computeComponentFallbackCarbonFromName (env : DataEnv) (componentId : Nat)
    (componentCookedWeightKg : ℚ) : CarbonTotals :=
  match env.componentName componentId with
  | none => ⟨0, componentCookedWeightKg, 0, 0⟩
  | some comp =>
    let core := normalizeCoreFromName (comp.name_raw.getD "")
    if core = "UNKNOWN" then ⟨0, componentCookedWeightKg, 0, 0⟩
    else
      match env.mappings core with
      | none => ⟨0, componentCookedWeightKg, 0, 0⟩
      | some mapping =>
        let weightState := effWeightState mapping
        if weightState = "ignore" then ⟨0, 0, 0, componentCookedWeightKg⟩
        else
          let food := mapping.luke_foodid.bind env.foods
          match getCo2FactorKgPerKg (some mapping) food with
          | none => ⟨0, componentCookedWeightKg, 0, 0⟩
          | some factor =>
            if weightState = "raw" then
              match mapping.yield_cooked_per_raw with
              | some y =>
                if 0 < y then
                  ⟨componentCookedWeightKg / y * factor, 0, componentCookedWeightKg, 0⟩
                else ⟨0, componentCookedWeightKg, 0, 0⟩
              | none => ⟨0, componentCookedWeightKg, 0, 0⟩
            else ⟨componentCookedWeightKg * factor, 0, componentCookedWeightKg, 0⟩

/-- The clamped share of one ingredient row (`clamp(n, 0, 100)`, `null` for
missing/non-finite). -/
def clampedShare (r : IngredientRow) : Option ℚ :=
  r.share_of_component.map (fun n => clampQ n 0 100)

/-- Sum of a list of optional shares, counting missing entries as 0
(`sumNums(sharePctByRow.map(v => v == null ? 0 : v))`). -/
def optShareSum (shares : List (Option ℚ)) : ℚ :=
  (shares.map (fun v => v.getD 0)).sum

/-- The ingredient-share normalization factor: `100 / sum` when no share is
missing and the sum is within `ING_SHARE_NORMALIZE_EPS` of 100, else 1. -/
def ingNormFactor (shares : List (Option ℚ)) : ℚ :=
  if shares.all (·.isSome) ∧ |optShareSum shares - 100| ≤ ING_SHARE_NORMALIZE_EPS then
    100 / optShareSum shares
  else 1

/-- The body of the per-ingredient loop of `computeComponentCarbon`
(carbonCalculator.ts lines 294–357): classify one leaf and add its cooked
mass to exactly one bucket. -/
def ingredientStep (env : DataEnv) (normFactor componentCookedWeightKg : ℚ)
    (acc : CarbonTotals) (x : IngredientRow × Option ℚ) : CarbonTotals :=
  match x.2 with
  | none => acc
  | some pctRaw =>
    let pct := pctRaw * normFactor
    let frac := clampQ (pct / 100) 0 1
    let cookedKg := componentCookedWeightKg * frac
    if x.1.is_water || x.1.is_salt then
      { acc with ignoredKg := acc.ignoredKg + cookedKg }
    else if frac < MIN_SHARE_FRAC then
      { acc with ignoredKg := acc.ignoredKg + cookedKg }
    else
      match env.mappings x.1.ingredient_core with
      | none => { acc with unmappedKg := acc.unmappedKg + cookedKg }
      | some mapping =>
        let weightState := effWeightState mapping
        if weightState = "ignore" then
          { acc with ignoredKg := acc.ignoredKg + cookedKg }
        else
          let food := mapping.luke_foodid.bind env.foods
          match getCo2FactorKgPerKg (some mapping) food with
          | none => { acc with unmappedKg := acc.unmappedKg + cookedKg }
          | some factor =>
            if weightState = "raw" then
              match mapping.yield_cooked_per_raw with
              | some y =>
                if 0 < y then
                  { acc with
                    co2eKg := acc.co2eKg + cookedKg / y * factor,
                    mappedKg := acc.mappedKg + cookedKg }
                else { acc with unmappedKg := acc.unmappedKg + cookedKg }
              | none => { acc with unmappedKg := acc.unmappedKg + cookedKg }
            else
              { acc with
                co2eKg := acc.co2eKg + cookedKg * factor,
                mappedKg := acc.mappedKg + cookedKg }

/-- The full per-ingredient loop, folded over the rows paired with their
clamped shares. -/
def componentLoopTotals (env : DataEnv) (normFactor componentCookedWeightKg : ℚ)
    (ingredients : List IngredientRow) : CarbonTotals :=
  (ingredients.zip (ingredients.map clampedShare)).foldl
    (ingredientStep env normFactor componentCookedWeightKg) ⟨0, 0, 0, 0⟩

/-- `computeComponentCarbon` from carbonCalculator.ts. -/
def computeComponentCarbon (env : DataEnv) (componentId : Nat)
    (componentCookedWeightKg : ℚ) : Except CalcError CarbonTotals :=
  if componentCookedWeightKg ≤ 0 then .ok ⟨0, 0, 0, 0⟩
  else
    let ingredients := env.componentIngredients componentId
    if ingredients.isEmpty then
      .ok (computeComponentFallbackCarbonFromName env componentId componentCookedWeightKg)
    else
      let shares := ingredients.map clampedShare
      let sumPct := optShareSum shares
      if sumPct ≤ 0 then
        .ok (computeComponentFallbackCarbonFromName env componentId componentCookedWeightKg)
      else if 100 + ING_SHARE_MAX_OVER_EPS < sumPct then
        .error (.ingredientShareSumExceeds componentId sumPct)
      else
        let normFactor := ingNormFactor shares
        let allocatedFrac := clampQ (sumPct * normFactor / 100) 0 1
        let unallocatedKg := componentCookedWeightKg * (1 - allocatedFrac)
        let base := componentLoopTotals env normFactor componentCookedWeightKg ingredients
        if UNALLOC_EPS < unallocatedKg ∧ normFactor = 1 then
          .ok { base with unmappedKg := base.unmappedKg + unallocatedKg }
        else .ok base

/-! ### Donation-level allocation -/

/-- The provided plate shares: `clamp(n, 0, 1)` for each present and finite
`plate_share`, `null` otherwise. -/
def providedPlateShares (comps : List DishComponentRow) : List (Option ℚ) :=
  comps.map (fun c => c.plate_share.map (fun n => clampQ n 0 1))

/-- The plate shares after the missing-entry fill-in: a positive remainder
`1 - sum` is split equally over the missing entries; otherwise missing
entries count as 0. -/
def rawPlateShares (comps : List DishComponentRow) : List ℚ :=
  if ((providedPlateShares comps).filter (·.isNone)).length ≠ 0
      ∧ 0 < 1 - optShareSum (providedPlateShares comps) then
    (providedPlateShares comps).map
      (fun v => v.getD ((1 - optShareSum (providedPlateShares comps))
        / (((providedPlateShares comps).filter (·.isNone)).length : ℚ)))
  else (providedPlateShares comps).map (fun v => v.getD 0)

/-- The plate-share computation of `computeDonationCarbon`
(carbonCalculator.ts lines 410–455): clamp provided shares to `[0,1]`,
equal-split when nothing is provided, distribute a positive remainder over
missing entries, hard-error above `1 + PLATE_SHARE_NORMALIZE_EPS`, and
rescale when the sum is within the epsilon of 1. -/
def dishShares (dishId : Nat) (comps : List DishComponentRow) :
    Except CalcError (List ℚ) :=
  if optShareSum (providedPlateShares comps) ≤ 0 then
    .ok (comps.map (fun _ => 1 / (comps.length : ℚ)))
  else if 1 + PLATE_SHARE_NORMALIZE_EPS < (rawPlateShares comps).sum then
    .error (.plateShareSumExceeds dishId (rawPlateShares comps).sum)
  else if 0 < (rawPlateShares comps).sum
      ∧ |(rawPlateShares comps).sum - 1| ≤ PLATE_SHARE_NORMALIZE_EPS then
    .ok ((rawPlateShares comps).map (· / (rawPlateShares comps).sum))
  else .ok (rawPlateShares comps)

/-- The result record returned by `computeDonationCarbon` (the constant
`mapping_source_system` label is omitted: the namespace is abstracted into
`DataEnv.mappings`). -/
structure DonationCarbonResult where
  donation_id : Nat
  dish_id : Option Nat
  component_id : Option Nat
  donated_weight_kg : ℚ
  total_co2e_kg : ℚ
  total_food_mass_kg : ℚ
  unmapped_mass_kg : ℚ
  co2_per_kg : ℚ
  mapped_mass_kg : ℚ
  ignored_mass_kg : ℚ
deriving DecidableEq

/-- Componentwise sum of totals. -/
def addTotals (a b : CarbonTotals) : CarbonTotals :=
  ⟨a.co2eKg + b.co2eKg, a.unmappedKg + b.unmappedKg,
   a.mappedKg + b.mappedKg, a.ignoredKg + b.ignoredKg⟩

/-- The per-component accumulation loop of `computeDonationCarbon`:
components with non-positive allocated weight are skipped (`continue`),
any component error aborts the donation. -/
def accumulateComponents (env : DataEnv) :
    CarbonTotals → List (Nat × ℚ) → Except CalcError CarbonTotals
  | acc, [] => .ok acc
  | acc, (cid, cw) :: rest =>
    if cw ≤ 0 then accumulateComponents env acc rest
    else
      match computeComponentCarbon env cid cw with
      | .error e => .error e
      | .ok r => accumulateComponents env (addTotals acc r) rest

/-- `computeDonationCarbon` from carbonCalculator.ts.  The
`donation_metrics` cache upsert is a non-fatal side effect that does not
change the returned value and is not modelled. -/
def computeDonationCarbon (env : DataEnv) (donationId : Nat) :
    Except CalcError DonationCarbonResult :=
  match env.donations donationId with
  | none => .error (.donationNotFound donationId)
  | some donation =>
    match donation.donated_weight_kg with
    | none => .error (.invalidWeight donationId)
    | some w =>
      if w ≤ 0 then .error (.invalidWeight donationId)
      else
        let finish : CarbonTotals → DonationCarbonResult := fun t =>
          { donation_id := donationId
            dish_id := donation.dish_id
            component_id := donation.component_id
            donated_weight_kg := w
            total_co2e_kg := t.co2eKg
            total_food_mass_kg := w
            unmapped_mass_kg := t.unmappedKg
            co2_per_kg := if 0 < w then t.co2eKg / w else 0
            mapped_mass_kg := t.mappedKg
            ignored_mass_kg := t.ignoredKg }
        match donation.component_id with
        | some cid =>
          match computeComponentCarbon env cid w with
          | .error e => .error e
          | .ok t => .ok (finish t)
        | none =>
          match donation.dish_id with
          | none => .error (.noTarget donationId)
          | some did =>
            let comps := env.dishComponents did
            if comps.isEmpty then .ok (finish ⟨0, w, 0, 0⟩)
            else
              match dishShares did comps with
              | .error e => .error e
              | .ok shares =>
                match accumulateComponents env ⟨0, 0, 0, 0⟩
                    ((comps.map (·.id)).zip (shares.map (fun s => w * s))) with
                | .error e => .error e
                | .ok t => .ok (finish t)

/-! ### Helper definitions and lemmas for the mass-conservation analysis -/

/-- The total mass a `CarbonTotals` accounts for. -/
def bucketsSum (t : CarbonTotals) : ℚ := t.mappedKg + t.unmappedKg + t.ignoredKg

/-- The cooked mass one leaf contributes to the buckets: 0 for a missing
share, `w * clamp(pct * normFactor / 100, 0, 1)` otherwise. -/
def optLeafMass (normFactor w : ℚ) : Option ℚ → ℚ
  | none => 0
  | some p => w * clampQ (p * normFactor / 100) 0 1

/-! ### Decidable preconditions, instances and concrete environments -/

/-- Sufficient (decidable) condition under which one component's
computation conserves mass: no structured rows, unusable shares (both go
through the name fallback, which assigns the whole mass to one bucket), no
missing share, or a clamped share sum of at most 100.  The one remaining
case — a missing share combined with a clamped sum in `(100, 100.5]` —
over-allocates, which the conservation counterexample exploits. -/
def componentMassOK (env : DataEnv) (cid : Nat) : Bool :=
  let shares := (env.componentIngredients cid).map clampedShare
  (env.componentIngredients cid).isEmpty
    || decide (optShareSum shares ≤ 0)
    || shares.all (·.isSome)
    || decide (optShareSum shares ≤ 100)

/-- The number of component allocations a donation's computation iterates
over (1 for a component-targeted donation, the dish's component count for a
dish-targeted one). -/
def donationAllocCount (env : DataEnv) (donationId : Nat) : Nat :=
  match env.donations donationId with
  | none => 0
  | some d =>
    match d.component_id with
    | some _ => 1
    | none =>
      match d.dish_id with
      | some did => (env.dishComponents did).length
      | none => 0

/-- Decidable precondition for the amended conservation claim: every
processed component satisfies `componentMassOK`, and for a dish-targeted
donation the computed plate shares sum to exactly 1 (which the code only
guarantees via the equal-split fallback, the missing-entry fill-in, or
close-to-1 normalization). -/
def donationConservOK (env : DataEnv) (donationId : Nat) : Bool :=
  match env.donations donationId with
  | none => true
  | some d =>
    match d.component_id with
    | some cid => componentMassOK env cid
    | none =>
      match d.dish_id with
      | none => true
      | some did =>
        (env.dishComponents did).isEmpty
          || ((match dishShares did (env.dishComponents did) with
               | .ok shares => decide (shares.sum = 1)
               | .error _ => true)
              && (env.dishComponents did).all (fun c => componentMassOK env c.id))

instance {ε α : Type} [DecidableEq ε] [DecidableEq α] : DecidableEq (Except ε α) :=
  fun a b =>
    match a, b with
    | .ok x, .ok y =>
      if h : x = y then isTrue (by rw [h]) else isFalse (fun hc => h (Except.ok.inj hc))
    | .error x, .error y =>
      if h : x = y then isTrue (by rw [h]) else isFalse (fun hc => h (Except.error.inj hc))
    | .ok _, .error _ => isFalse (fun hc => Except.noConfusion hc)
    | .error _, .ok _ => isFalse (fun hc => Except.noConfusion hc)

/-! ### Concrete environments used to witness and refute the claims -/

/-- An empty database. -/
def emptyEnv : DataEnv where
  donations := fun _ => none
  dishComponents := fun _ => []
  componentName := fun _ => none
  componentIngredients := fun _ => []
  mappings := fun _ => none
  foods := fun _ => none

/-- Witness environment for conservation: donation 1 donates 2 kg of
component 5, whose single ingredient POTATO (share 100) maps with a direct
override of 3 kgCO2e/kg cooked. -/
def envW : DataEnv :=
  { emptyEnv with
    donations := fun n => if n = 1 then some ⟨none, some 5, some 2⟩ else none
    componentIngredients := fun c =>
      if c = 5 then [⟨"POTATO", some 100, false, false⟩] else []
    mappings := fun core =>
      if core = "POTATO" then some ⟨"POTATO", none, some "cooked", none, some 3⟩
      else none }

/-- The result `computeDonationCarbon envW 1` produces. -/
def resW : DonationCarbonResult :=
  ⟨1, none, some 5, 2, 6, 2, 0, 3, 2, 0⟩

/-- Counterexample environment for the unconditional conservation claim:
donation 1 donates 1 kg of dish 1, whose only component has
`plate_share = 0.5` (all shares present, sum 0.5, not within 0.03 of 1, so
no rescaling and no fill-in); the component has no ingredient rows and no
name row, so its allocated 0.5 kg is unmapped — and the other 0.5 kg of the
donation is accounted nowhere. -/
def envCex : DataEnv :=
  { emptyEnv with
    donations := fun n => if n = 1 then some ⟨some 1, none, some 1⟩ else none
    dishComponents := fun d => if d = 1 then [⟨10, some (1 / 2)⟩] else [] }

/-- Environment for the hard-over witness: component 7 has ingredient
shares `[60, 60]`, summing to 120. -/
def envC2 : DataEnv :=
  { emptyEnv with
    donations := fun n => if n = 1 then some ⟨none, some 7, some 1⟩ else none
    componentIngredients := fun c =>
      if c = 7 then
        [⟨"A", some 60, false, false⟩, ⟨"B", some 60, false, false⟩]
      else [] }

/-- Environment for the no-factor witness: the active mapping for NOFAC has
no override and no reference food, so no factor resolves. -/
def envC3 : DataEnv :=
  { emptyEnv with
    mappings := fun core =>
      if core = "NOFAC" then some ⟨"NOFAC", none, some "cooked", none, none⟩
      else none }

/-- Environment for the raw-conversion witness: MEAT maps raw with yield
0.5 and override factor 2; MEATBAD maps raw with yield 0. -/
def envC4 : DataEnv :=
  { emptyEnv with
    mappings := fun core =>
      if core = "MEAT" then some ⟨"MEAT", none, some "raw", some (1 / 2), some 2⟩
      else if core = "MEATBAD" then some ⟨"MEATBAD", none, some "raw", some 0, some 2⟩
      else none }

/-- Environment for the unallocated-remainder witness: component 6 has one
ingredient with share 70 and one with no share at all (sum 70, no
normalization), and no mappings exist. -/
def envC5 : DataEnv :=
  { emptyEnv with
    componentIngredients := fun c =>
      if c = 6 then
        [⟨"BEEF", some 70, false, false⟩, ⟨"MYSTERY", none, false, false⟩]
      else [] }

/-- Environment for the threshold witness: SUGAR has an active mapping with
a resolvable factor, yet a 5% share is still ignored. -/
def envC7 : DataEnv :=
  { emptyEnv with
    mappings := fun core =>
      if core = "SUGAR" then some ⟨"SUGAR", none, some "cooked", none, some 3⟩
      else none }

/-- Environment projection for the equal-split witness: two components,
both with `plate_share = NULL`. -/
def compsC8 : List DishComponentRow := [⟨21, none⟩, ⟨22, none⟩]

/-- Environment for the weight-state-default witness: NOSTATE has a NULL
weight_state, EMPTYSTATE an empty one, and BOILED the unrecognized value
"Boiled" (lowercased to "boiled", so treated as cooked). -/
def envC9 : DataEnv :=
  { emptyEnv with
    mappings := fun core =>
      if core = "NOSTATE" then some ⟨"NOSTATE", none, none, none, some 3⟩
      else if core = "EMPTYSTATE" then some ⟨"EMPTYSTATE", none, some "", none, some 3⟩
      else if core = "BOILED" then some ⟨"BOILED", none, some "Boiled", none, some 3⟩
      else none }

/-- Environment for the zero-share-fallback witness: component 5's rows
have a NULL and a 0 share, but its name "rice" normalizes to RICE, which
maps cooked with override 3 — so the whole 1 kg ends up mapped. -/
def envC10 : DataEnv :=
  { emptyEnv with
    componentIngredients := fun c =>
      if c = 5 then [⟨"X", none, false, false⟩, ⟨"Y", some 0, false, false⟩] else []
    componentName := fun c => if c = 5 then some ⟨some "rice"⟩ else none
    mappings := fun core =>
      if core = "RICE" then some ⟨"RICE", none, some "cooked", none, some 3⟩
      else none }

theorem clampQ_le_right {n lo hi : ℚ} (h : lo ≤ hi) : clampQ n lo hi ≤ hi :=
  max_le h (min_le_left _ _)

theorem le_clampQ (n lo hi : ℚ) : lo ≤ clampQ n lo hi := le_max_left _ _

theorem clampQ_of_le {n lo hi : ℚ} (h1 : lo ≤ n) (h2 : n ≤ hi) : clampQ n lo hi = n := by
  unfold clampQ
  rw [min_eq_right h2, max_eq_right h1]

theorem bucketsSum_ingredientStep (env : DataEnv) (nf w : ℚ) (acc : CarbonTotals)
    (x : IngredientRow × Option ℚ) :
    bucketsSum (ingredientStep env nf w acc x) = bucketsSum acc + optLeafMass nf w x.2 := by
  rcases x with ⟨r, p⟩
  cases p with
  | none => simp [ingredientStep, optLeafMass]
  | some q =>
    simp only [ingredientStep, optLeafMass]
    repeat' split
    all_goals simp [bucketsSum]
    all_goals ring

theorem bucketsSum_foldl (env : DataEnv) (nf w : ℚ) :
    ∀ (l : List (IngredientRow × Option ℚ)) (acc : CarbonTotals),
      bucketsSum (l.foldl (ingredientStep env nf w) acc)
        = bucketsSum acc + (l.map (fun x => optLeafMass nf w x.2)).sum
  | [], acc => by simp
  | x :: t, acc => by
    rw [List.foldl_cons, bucketsSum_foldl env nf w t, bucketsSum_ingredientStep,
      List.map_cons, List.sum_cons]
    ring

theorem zip_clampedShare_snd :
    ∀ (ings : List IngredientRow) (nf w : ℚ),
      ((ings.zip (ings.map clampedShare)).map (fun x => optLeafMass nf w x.2))
        = (ings.map clampedShare).map (optLeafMass nf w)
  | [], _, _ => rfl
  | r :: t, nf, w => by
    simp only [List.map_cons, List.zip_cons_cons, List.map_cons]
    rw [zip_clampedShare_snd t nf w]

theorem bucketsSum_componentLoopTotals (env : DataEnv) (nf w : ℚ)
    (ings : List IngredientRow) :
    bucketsSum (componentLoopTotals env nf w ings)
      = ((ings.map clampedShare).map (optLeafMass nf w)).sum := by
  unfold componentLoopTotals
  rw [bucketsSum_foldl, zip_clampedShare_snd]
  simp [bucketsSum]

theorem optShareSum_nil : optShareSum [] = 0 := rfl

theorem optShareSum_cons (v : Option ℚ) (t : List (Option ℚ)) :
    optShareSum (v :: t) = v.getD 0 + optShareSum t := by
  simp [optShareSum]

theorem clampedShare_bounds (r : IngredientRow) (q : ℚ) (h : clampedShare r = some q) :
    0 ≤ q ∧ q ≤ 100 := by
  unfold clampedShare at h
  cases hs : r.share_of_component with
  | none => rw [hs] at h; cases h
  | some n =>
    rw [hs] at h
    simp only [Option.map_some', Option.some.injEq] at h
    subst h
    exact ⟨le_clampQ n 0 100, clampQ_le_right (by norm_num)⟩

theorem optShareSum_nonneg (shares : List (Option ℚ))
    (h : ∀ q : ℚ, some q ∈ shares → 0 ≤ q) : 0 ≤ optShareSum shares := by
  induction shares with
  | nil => simp [optShareSum]
  | cons v t ih =>
    rw [optShareSum_cons]
    have ht := ih (fun q hq => h q (List.mem_cons_of_mem _ hq))
    have hv : 0 ≤ v.getD 0 := by
      cases v with
      | none => simp
      | some q => exact h q (List.mem_cons_self _ _)
    linarith

theorem getD_le_optShareSum (shares : List (Option ℚ))
    (hnn : ∀ q : ℚ, some q ∈ shares → 0 ≤ q) :
    ∀ q : ℚ, some q ∈ shares → q ≤ optShareSum shares := by
  induction shares with
  | nil => intro q hq; cases hq
  | cons v t ih =>
    intro q hq
    have ht0 : 0 ≤ optShareSum t :=
      optShareSum_nonneg t (fun q hq => hnn q (List.mem_cons_of_mem _ hq))
    rw [optShareSum_cons]
    rcases List.mem_cons.mp hq with hq | hq
    · rw [← hq]
      simp only [Option.getD_some]
      linarith
    · have := ih (fun q hq => hnn q (List.mem_cons_of_mem _ hq)) q hq
      have hv : 0 ≤ v.getD 0 := by
        cases v with
        | none => simp
        | some p => exact hnn p (List.mem_cons_self _ _)
      linarith

theorem sum_optLeafMass_one (w : ℚ) :
    ∀ shares : List (Option ℚ),
      (∀ q : ℚ, some q ∈ shares → 0 ≤ q ∧ q ≤ 100) →
      (shares.map (optLeafMass 1 w)).sum = w * optShareSum shares / 100
  | [], _ => by simp [optShareSum]
  | v :: t, h => by
    have ht := sum_optLeafMass_one w t (fun q hq => h q (List.mem_cons_of_mem _ hq))
    rw [List.map_cons, List.sum_cons, ht, optShareSum_cons]
    cases v with
    | none => simp [optLeafMass]
    | some q =>
      have hb := h q (List.mem_cons_self _ _)
      have h1 : (0:ℚ) ≤ q * 1 / 100 := by linarith
      have h2 : q * 1 / 100 ≤ 1 := by linarith
      simp only [optLeafMass, clampQ_of_le h1 h2, Option.getD_some]
      ring

theorem sum_optLeafMass_norm (w S : ℚ) (hS : 0 < S) :
    ∀ shares : List (Option ℚ),
      (∀ q : ℚ, some q ∈ shares → 0 ≤ q ∧ q ≤ S) →
      (shares.map (optLeafMass (100 / S) w)).sum = w * optShareSum shares / S
  | [], _ => by simp [optShareSum]
  | v :: t, h => by
    have ht := sum_optLeafMass_norm w S hS t (fun q hq => h q (List.mem_cons_of_mem _ hq))
    rw [List.map_cons, List.sum_cons, ht, optShareSum_cons]
    cases v with
    | none => simp [optLeafMass]
    | some q =>
      have hb := h q (List.mem_cons_self _ _)
      have hS' : S ≠ 0 := ne_of_gt hS
      have heq : q * (100 / S) / 100 = q / S := by
        field_simp
        ring
      have h1 : (0:ℚ) ≤ q / S := div_nonneg hb.1 hS.le
      have h2 : q / S ≤ 1 := (div_le_one hS).mpr hb.2
      simp only [optLeafMass, heq, clampQ_of_le h1 h2, Option.getD_some]
      field_simp
      ring

theorem bucketsSum_fallback (env : DataEnv) (cid : Nat) (w : ℚ) :
    bucketsSum (computeComponentFallbackCarbonFromName env cid w) = w := by
  unfold computeComponentFallbackCarbonFromName
  cases hc : env.componentName cid with
  | none => simp [bucketsSum]
  | some comp =>
    dsimp only
    by_cases h1 : normalizeCoreFromName (comp.name_raw.getD "") = "UNKNOWN"
    · simp [h1, bucketsSum]
    · rw [if_neg h1]
      cases hm : env.mappings (normalizeCoreFromName (comp.name_raw.getD "")) with
      | none => simp [bucketsSum]
      | some mapping =>
        dsimp only
        by_cases h2 : effWeightState mapping = "ignore"
        · simp [h2, bucketsSum]
        · rw [if_neg h2]
          cases hf : getCo2FactorKgPerKg (some mapping) (mapping.luke_foodid.bind env.foods) with
          | none => simp [bucketsSum]
          | some factor =>
            dsimp only
            by_cases h3 : effWeightState mapping = "raw"
            · rw [if_pos h3]
              cases hy : mapping.yield_cooked_per_raw with
              | none => simp [bucketsSum]
              | some y =>
                dsimp only
                by_cases h4 : (0:ℚ) < y
                · simp [h4, bucketsSum]
                · simp [h4, bucketsSum]
            · simp [h3, bucketsSum]

theorem componentConservation (env : DataEnv) (cid : Nat) (w : ℚ) (t : CarbonTotals)
    (hw : 0 < w) (hok : componentMassOK env cid = true)
    (h : computeComponentCarbon env cid w = .ok t) :
    w - UNALLOC_EPS ≤ bucketsSum t ∧ bucketsSum t ≤ w := by
  have hUE : (0:ℚ) < UNALLOC_EPS := by norm_num [UNALLOC_EPS]
  unfold computeComponentCarbon at h
  rw [if_neg (not_le.mpr hw)] at h
  simp only at h
  set ings := env.componentIngredients cid with hings
  set shares := ings.map clampedShare with hsh
  set S := optShareSum shares with hS
  simp only [componentMassOK, Bool.or_eq_true, decide_eq_true_eq] at hok
  rw [← hings, ← hsh, ← hS] at hok
  have hbd : ∀ q : ℚ, some q ∈ shares → 0 ≤ q ∧ q ≤ 100 := by
    intro q hq
    rw [hsh] at hq
    rcases List.mem_map.mp hq with ⟨r, _, hr⟩
    exact clampedShare_bounds r q hr
  by_cases hemp : ings.isEmpty
  · rw [if_pos hemp] at h
    simp only [Except.ok.injEq] at h
    rw [← h, bucketsSum_fallback]
    constructor <;> linarith
  · rw [if_neg hemp] at h
    by_cases hle : S ≤ 0
    · rw [if_pos hle] at h
      simp only [Except.ok.injEq] at h
      rw [← h, bucketsSum_fallback]
      constructor <;> linarith
    · rw [if_neg hle] at h
      by_cases hover : 100 + ING_SHARE_MAX_OVER_EPS < S
      · rw [if_pos hover] at h
        exact Except.noConfusion h
      · rw [if_neg hover] at h
        have hpos : 0 < S := lt_of_not_le hle
        have hcap : S ≤ 100 + 1 / 2 := by
          have := not_lt.mp hover
          simpa [ING_SHARE_MAX_OVER_EPS] using this
        by_cases hnormc :
            shares.all (·.isSome) = true ∧ |S - 100| ≤ ING_SHARE_NORMALIZE_EPS
        · -- normalization occurs: the loop allocates exactly w
          have hnf : ingNormFactor shares = 100 / S := by
            unfold ingNormFactor
            rw [← hS, if_pos hnormc]
          have hone : clampQ (S * ingNormFactor shares / 100) 0 1 = 1 := by
            rw [hnf]
            have : S * (100 / S) / 100 = 1 := by
              field_simp
            rw [this]
            exact clampQ_of_le zero_le_one le_rfl
          rw [if_neg (by
            rw [hone]
            rintro ⟨h1, _⟩
            norm_num [UNALLOC_EPS] at h1)] at h
          simp only [Except.ok.injEq] at h
          have hSle : ∀ q : ℚ, some q ∈ shares → 0 ≤ q ∧ q ≤ S := by
            intro q hq
            refine ⟨(hbd q hq).1, ?_⟩
            have := getD_le_optShareSum shares (fun p hp => (hbd p hp).1) q hq
            rw [← hS] at this
            exact this
          have hsum := sum_optLeafMass_norm w S hpos shares hSle
          rw [← hS] at hsum
          have hbs : bucketsSum t = w := by
            rw [← h, bucketsSum_componentLoopTotals, ← hsh, hnf, hsum]
            field_simp
          rw [hbs]
          constructor <;> linarith
        · -- no normalization: factor 1, remainder possibly added
          have hnf : ingNormFactor shares = 1 := by
            unfold ingNormFactor
            rw [← hS, if_neg hnormc]
          have hle100 : S ≤ 100 := by
            rcases hok with ((hok | hok) | hok) | hok
            · exact absurd hok hemp
            · exact absurd hok hle
            · by_contra hgt
              push_neg at hgt
              refine hnormc ⟨hok, ?_⟩
              rw [abs_le]
              have h5 : ING_SHARE_NORMALIZE_EPS = 5 := rfl
              constructor <;> rw [h5] <;> linarith
            · exact hok
          have hfrac : clampQ (S * ingNormFactor shares / 100) 0 1 = S / 100 := by
            rw [hnf, mul_one]
            exact clampQ_of_le (by linarith) (by linarith)
          have hsum := sum_optLeafMass_one w shares hbd
          rw [← hS] at hsum
          have hbase : bucketsSum (componentLoopTotals env (ingNormFactor shares) w ings)
              = w * S / 100 := by
            rw [bucketsSum_componentLoopTotals, ← hsh, hnf, hsum]
          have hun0 : 0 ≤ w * (1 - S / 100) := by
            apply mul_nonneg hw.le
            linarith
          by_cases hthr : UNALLOC_EPS < w * (1 - clampQ (S * ingNormFactor shares / 100) 0 1)
          · rw [if_pos ⟨hthr, hnf⟩] at h
            simp only [Except.ok.injEq] at h
            have hbs : bucketsSum t = w := by
              rw [← h]
              simp only [bucketsSum] at hbase ⊢
              rw [hfrac]
              have hr : w * S / 100 + w * (1 - S / 100) = w := by ring
              linarith
            rw [hbs]
            constructor <;> linarith
          · rw [if_neg (fun hcon => hthr hcon.1)] at h
            simp only [Except.ok.injEq] at h
            rw [← h, hbase]
            rw [hfrac] at hthr
            have hthr' : w * (1 - S / 100) ≤ UNALLOC_EPS := not_lt.mp hthr
            have hident : w * (1 - S / 100) = w - w * S / 100 := by ring
            constructor <;> linarith

theorem providedPlateShares_some_bounds (comps : List DishComponentRow) (q : ℚ)
    (h : some q ∈ providedPlateShares comps) : 0 ≤ q ∧ q ≤ 1 := by
  unfold providedPlateShares at h
  rcases List.mem_map.mp h with ⟨c, _, hc⟩
  cases hs : c.plate_share with
  | none => rw [hs] at hc; cases hc
  | some n =>
    rw [hs] at hc
    simp only [Option.map_some', Option.some.injEq] at hc
    rw [← hc]
    exact ⟨le_clampQ n 0 1, clampQ_le_right zero_le_one⟩

theorem length_rawPlateShares (comps : List DishComponentRow) :
    (rawPlateShares comps).length = comps.length := by
  unfold rawPlateShares providedPlateShares
  split <;> simp

theorem rawPlateShares_nonneg (comps : List DishComponentRow) :
    ∀ s ∈ rawPlateShares comps, 0 ≤ s := by
  unfold rawPlateShares
  split
  case isTrue hcond =>
    intro s hs
    rcases List.mem_map.mp hs with ⟨v, hv, rfl⟩
    cases v with
    | none =>
      simp only [Option.getD_none]
      exact div_nonneg hcond.2.le (Nat.cast_nonneg _)
    | some q =>
      simp only [Option.getD_some]
      exact (providedPlateShares_some_bounds comps q hv).1
  case isFalse =>
    intro s hs
    rcases List.mem_map.mp hs with ⟨v, hv, rfl⟩
    cases v with
    | none => simp
    | some q =>
      simp only [Option.getD_some]
      exact (providedPlateShares_some_bounds comps q hv).1

theorem dishShares_length (did : Nat) (comps : List DishComponentRow) (shares : List ℚ)
    (h : dishShares did comps = .ok shares) : shares.length = comps.length := by
  unfold dishShares at h
  split at h
  · simp only [Except.ok.injEq] at h
    rw [← h]
    simp
  · split at h
    · exact Except.noConfusion h
    · split at h
      · simp only [Except.ok.injEq] at h
        rw [← h]
        simp [length_rawPlateShares]
      · simp only [Except.ok.injEq] at h
        rw [← h, length_rawPlateShares]

theorem dishShares_nonneg (did : Nat) (comps : List DishComponentRow) (shares : List ℚ)
    (h : dishShares did comps = .ok shares) : ∀ s ∈ shares, 0 ≤ s := by
  unfold dishShares at h
  split at h
  · simp only [Except.ok.injEq] at h
    rw [← h]
    intro s hs
    rcases List.mem_map.mp hs with ⟨c, _, rfl⟩
    exact div_nonneg zero_le_one (Nat.cast_nonneg _)
  · split at h
    · exact Except.noConfusion h
    · split at h
      case isTrue hcond =>
        simp only [Except.ok.injEq] at h
        rw [← h]
        intro s hs
        rcases List.mem_map.mp hs with ⟨x, hx, rfl⟩
        exact div_nonneg (rawPlateShares_nonneg comps x hx) hcond.1.le
      case isFalse =>
        simp only [Except.ok.injEq] at h
        rw [← h]
        exact rawPlateShares_nonneg comps

theorem map_snd_zip_eq :
    ∀ (l1 : List Nat) (l2 : List ℚ), l1.length = l2.length →
      ((l1.zip l2).map (fun p => p.2)) = l2
  | [], [], _ => rfl
  | [], _ :: _, h => by simp at h
  | _ :: _, [], h => by simp at h
  | a :: t1, b :: t2, h => by
    simp only [List.zip_cons_cons, List.map_cons]
    rw [map_snd_zip_eq t1 t2 (by simpa using h)]

theorem mem_zip_parts {l1 : List Nat} {l2 : List ℚ} {p : Nat × ℚ}
    (h : p ∈ l1.zip l2) : p.1 ∈ l1 ∧ p.2 ∈ l2 := by
  induction l1 generalizing l2 with
  | nil => cases l2 <;> cases h
  | cons a t1 ih =>
    cases l2 with
    | nil => cases h
    | cons b t2 =>
      rcases List.mem_cons.mp h with h | h
      · rw [h]
        exact ⟨List.mem_cons_self _ _, List.mem_cons_self _ _⟩
      · have := ih h
        exact ⟨List.mem_cons_of_mem _ this.1, List.mem_cons_of_mem _ this.2⟩

theorem sum_map_mul_w (w : ℚ) :
    ∀ l : List ℚ, (l.map (fun s => w * s)).sum = w * l.sum
  | [] => by simp
  | a :: t => by
    simp only [List.map_cons, List.sum_cons, sum_map_mul_w w t]
    ring

theorem bucketsSum_addTotals (a b : CarbonTotals) :
    bucketsSum (addTotals a b) = bucketsSum a + bucketsSum b := by
  simp only [bucketsSum, addTotals]
  ring

theorem accumulateConservation (env : DataEnv) (l : List (Nat × ℚ)) :
    ∀ (acc t : CarbonTotals),
      (∀ p ∈ l, componentMassOK env p.1 = true) →
      (∀ p ∈ l, 0 ≤ p.2) →
      accumulateComponents env acc l = .ok t →
      bucketsSum acc + (l.map (fun p => p.2)).sum - (l.length : ℚ) * UNALLOC_EPS
          ≤ bucketsSum t
        ∧ bucketsSum t ≤ bucketsSum acc + (l.map (fun p => p.2)).sum := by
  induction l with
  | nil =>
    intro acc t _ _ h
    simp only [accumulateComponents, Except.ok.injEq] at h
    rw [← h]
    simp
  | cons p rest ih =>
    rcases p with ⟨cid, cw⟩
    intro acc t hok hnn h
    have hUE : (0:ℚ) < UNALLOC_EPS := by norm_num [UNALLOC_EPS]
    rw [accumulateComponents] at h
    have hexp : ((rest.length : ℚ) + 1) * UNALLOC_EPS
        = (rest.length : ℚ) * UNALLOC_EPS + UNALLOC_EPS := by ring
    by_cases hcw : cw ≤ 0
    · rw [if_pos hcw] at h
      have hz : cw = 0 := le_antisymm hcw (hnn (cid, cw) (List.mem_cons_self _ _))
      have ihr := ih acc t (fun p hp => hok p (List.mem_cons_of_mem _ hp))
        (fun p hp => hnn p (List.mem_cons_of_mem _ hp)) h
      simp only [List.map_cons, List.sum_cons, List.length_cons, hz]
      push_cast
      rw [hexp]
      constructor
      · linarith [ihr.1]
      · linarith [ihr.2]
    · rw [if_neg hcw] at h
      cases hcc : computeComponentCarbon env cid cw with
      | error e => rw [hcc] at h; exact Except.noConfusion h
      | ok r =>
        rw [hcc] at h
        have hcomp := componentConservation env cid cw r (lt_of_not_le hcw)
          (hok (cid, cw) (List.mem_cons_self _ _)) hcc
        have ihr := ih (addTotals acc r) t (fun p hp => hok p (List.mem_cons_of_mem _ hp))
          (fun p hp => hnn p (List.mem_cons_of_mem _ hp)) h
        rw [bucketsSum_addTotals] at ihr
        simp only [List.map_cons, List.sum_cons, List.length_cons]
        push_cast
        rw [hexp]
        constructor
        · linarith [ihr.1, hcomp.1]
        · linarith [ihr.2, hcomp.2]

/-- C1 (amended): for every donation whose computation completes, the
returned totals satisfy
`donated_weight − n·1e-9 ≤ mapped + unmapped + ignored ≤ donated_weight`
(with `n` the number of processed components, so within 1e-9 per
component), provided that (i) every processed component satisfies
`componentMassOK` — i.e. does not combine a missing ingredient share with
clamped shares summing above 100 — and (ii) for a dish-targeted donation
the computed plate shares sum to exactly 1.  Without these two provisos the
claim is false, as the conservation counterexample shows. -/
theorem donation_mass_conservation (env : DataEnv) (donationId : Nat)
    (res : DonationCarbonResult)
    (hok : donationConservOK env donationId = true)
    (h : computeDonationCarbon env donationId = .ok res) :
    res.donated_weight_kg - (donationAllocCount env donationId : ℚ) * UNALLOC_EPS
        ≤ res.mapped_mass_kg + res.unmapped_mass_kg + res.ignored_mass_kg
      ∧ res.mapped_mass_kg + res.unmapped_mass_kg + res.ignored_mass_kg
        ≤ res.donated_weight_kg := by
  have hUE : (0:ℚ) < UNALLOC_EPS := by norm_num [UNALLOC_EPS]
  unfold computeDonationCarbon at h
  unfold donationConservOK at hok
  unfold donationAllocCount
  cases hd : env.donations donationId with
  | none => rw [hd] at h; exact Except.noConfusion h
  | some d =>
    rw [hd] at h hok
    dsimp only at h hok ⊢
    cases hwv : d.donated_weight_kg with
    | none => rw [hwv] at h; exact Except.noConfusion h
    | some w =>
      rw [hwv] at h
      dsimp only at h
      by_cases hwp : w ≤ 0
      · rw [if_pos hwp] at h
        exact Except.noConfusion h
      · rw [if_neg hwp] at h
        have hw : 0 < w := lt_of_not_le hwp
        cases hcid : d.component_id with
        | some cid =>
          rw [hcid] at h hok
          dsimp only at h hok ⊢
          cases hcc : computeComponentCarbon env cid w with
          | error e => rw [hcc] at h; exact Except.noConfusion h
          | ok t =>
            rw [hcc] at h
            dsimp only at h
            simp only [Except.ok.injEq] at h
            have hc := componentConservation env cid w t hw hok hcc
            simp only [bucketsSum] at hc
            rw [← h]
            dsimp only
            push_cast
            constructor
            · linarith [hc.1]
            · linarith [hc.2]
        | none =>
          rw [hcid] at h hok
          dsimp only at h hok ⊢
          cases hdid : d.dish_id with
          | none => rw [hdid] at h; exact Except.noConfusion h
          | some did =>
            rw [hdid] at h hok
            dsimp only at h hok ⊢
            by_cases hce : (env.dishComponents did).isEmpty
            · rw [if_pos hce] at h
              simp only [Except.ok.injEq] at h
              rw [← h]
              dsimp only
              have hnn : 0 ≤ ((env.dishComponents did).length : ℚ) * UNALLOC_EPS := by
                positivity
              constructor
              · linarith
              · linarith
            · rw [if_neg hce] at h
              rw [Bool.or_eq_true] at hok
              rcases hok with hok | hok
              · exact absurd hok hce
              · rw [Bool.and_eq_true] at hok
                obtain ⟨hsum1, hall⟩ := hok
                cases hds : dishShares did (env.dishComponents did) with
                | error e => rw [hds] at h; exact Except.noConfusion h
                | ok shares =>
                  rw [hds] at h hsum1
                  dsimp only at h hsum1
                  simp only [decide_eq_true_eq] at hsum1
                  cases hacc : accumulateComponents env ⟨0, 0, 0, 0⟩
                      (((env.dishComponents did).map (·.id)).zip
                        (shares.map (fun s => w * s))) with
                  | error e => rw [hacc] at h; exact Except.noConfusion h
                  | ok t =>
                    rw [hacc] at h
                    dsimp only at h
                    simp only [Except.ok.injEq] at h
                    have hlen : ((env.dishComponents did).map (·.id)).length
                        = (shares.map (fun s => w * s)).length := by
                      simp [dishShares_length did _ shares hds]
                    have hmapsnd := map_snd_zip_eq _ _ hlen
                    have hsum : (((((env.dishComponents did).map (·.id)).zip
                        (shares.map (fun s => w * s)))).map (fun p => p.2)).sum = w := by
                      rw [hmapsnd, sum_map_mul_w, hsum1, mul_one]
                    have hokL : ∀ p ∈ ((env.dishComponents did).map (·.id)).zip
                        (shares.map (fun s => w * s)), componentMassOK env p.1 = true := by
                      intro p hp
                      have h1 := (mem_zip_parts hp).1
                      rcases List.mem_map.mp h1 with ⟨c, hc, hcid2⟩
                      rw [← hcid2]
                      exact List.all_eq_true.mp hall c hc
                    have hnnL : ∀ p ∈ ((env.dishComponents did).map (·.id)).zip
                        (shares.map (fun s => w * s)), 0 ≤ p.2 := by
                      intro p hp
                      have h2 := (mem_zip_parts hp).2
                      rcases List.mem_map.mp h2 with ⟨s, hs, hval⟩
                      rw [← hval]
                      exact mul_nonneg hw.le (dishShares_nonneg did _ shares hds s hs)
                    have hLlen : ((((env.dishComponents did).map (·.id)).zip
                        (shares.map (fun s => w * s)))).length
                        = (env.dishComponents did).length := by
                      rw [List.length_zip]
                      simp [dishShares_length did _ shares hds]
                    have hac := accumulateConservation env _ _ t hokL hnnL hacc
                    rw [hsum, hLlen] at hac
                    simp only [bucketsSum] at hac
                    rw [← h]
                    dsimp only
                    constructor
                    · linarith [hac.1]
                    · linarith [hac.2]

theorem donation_mass_conservation_witness :
    resW.donated_weight_kg - (donationAllocCount envW 1 : ℚ) * UNALLOC_EPS
        ≤ resW.mapped_mass_kg + resW.unmapped_mass_kg + resW.ignored_mass_kg
      ∧ resW.mapped_mass_kg + resW.unmapped_mass_kg + resW.ignored_mass_kg
        ≤ resW.donated_weight_kg :=
  donation_mass_conservation envW 1 resW (by decide) (by decide)

/-- C1 counterexample: the computation completes, yet
`mapped + unmapped + ignored = 0.5` while `donated_weight_kg = 1`, missing
conservation by 0.5 kg — vastly beyond the 1e-9 tolerance. -/
theorem donation_mass_conservation_cex :
    (computeDonationCarbon envCex 1).toOption.map
        (fun r => (r.mapped_mass_kg + r.unmapped_mass_kg + r.ignored_mass_kg,
          r.donated_weight_kg)) = some (1 / 2, 1)
    ∧ ¬ |(1 / 2 : ℚ) - 1| ≤ UNALLOC_EPS := by
  constructor
  · decide
  · decide

/-- C2: if a donation targets a component whose clamped
`share_of_component` values sum beyond `100 + 0.5`, the whole donation
computation aborts with a data-integrity error carrying the offending
component id and the observed sum — the shares are never clamped or
rescaled into a successful result. -/
theorem ingredient_share_overflow_error (env : DataEnv) (donationId cid : Nat)
    (d : DonationRow) (w : ℚ)
    (hd : env.donations donationId = some d)
    (hcid : d.component_id = some cid)
    (hwv : d.donated_weight_kg = some w)
    (hw : 0 < w)
    (hsum : 100 + ING_SHARE_MAX_OVER_EPS
        < optShareSum ((env.componentIngredients cid).map clampedShare)) :
    computeDonationCarbon env donationId
      = .error (.ingredientShareSumExceeds cid
          (optShareSum ((env.componentIngredients cid).map clampedShare))) := by
  have hcc : computeComponentCarbon env cid w
      = .error (.ingredientShareSumExceeds cid
          (optShareSum ((env.componentIngredients cid).map clampedShare))) := by
    unfold computeComponentCarbon
    rw [if_neg (not_le.mpr hw)]
    have hne : (env.componentIngredients cid).isEmpty = false := by
      cases hi : env.componentIngredients cid with
      | nil =>
        rw [hi] at hsum
        exact absurd hsum (by norm_num [optShareSum, ING_SHARE_MAX_OVER_EPS])
      | cons a t => rfl
    rw [if_neg (by simp [hne])]
    have hpos : ¬ optShareSum ((env.componentIngredients cid).map clampedShare) ≤ 0 := by
      rw [not_le]
      calc (0:ℚ) < 100 + ING_SHARE_MAX_OVER_EPS := by norm_num [ING_SHARE_MAX_OVER_EPS]
        _ < _ := hsum
    rw [if_neg hpos, if_pos hsum]
  unfold computeDonationCarbon
  rw [hd]
  dsimp only
  rw [hwv]
  dsimp only
  rw [if_neg (not_le.mpr hw)]
  rw [hcid]
  dsimp only
  rw [hcc]

theorem ingredient_share_overflow_error_witness :
    computeDonationCarbon envC2 1 = .error (.ingredientShareSumExceeds 7 120) := by
  have h := ingredient_share_overflow_error envC2 1 7 ⟨none, some 7, some 1⟩ 1
    rfl rfl rfl one_pos (by decide)
  rw [h]
  decide

/-- C3: the CO2 factor is resolved by a fixed priority, first match
winning — the mapping's direct override; else the reference food's per-kg
factor; else the per-100g factor times 0.01; else no factor — and a leaf
whose factor cannot be resolved is classified unmapped (its cooked mass
goes to the unmapped bucket, with mapped mass and CO2e unchanged), never
mapped with zero emissions. -/
theorem co2_factor_priority (m : MappingRow) (env : DataEnv) (nf w : ℚ)
    (acc : CarbonTotals) (r : IngredientRow) (p q : ℚ) :
    ((m.co2_override_per_kg = some q →
        ∀ food : Option LukeFoodRow, getCo2FactorKgPerKg (some m) food = some q)
  ∧ (∀ fd : LukeFoodRow, m.co2_override_per_kg = none → fd.kg_co2e_per_kg = some q →
        getCo2FactorKgPerKg (some m) (some fd) = some q)
  ∧ (∀ fd : LukeFoodRow, m.co2_override_per_kg = none → fd.kg_co2e_per_kg = none →
        fd.g_co2e_per_100g = some q →
        getCo2FactorKgPerKg (some m) (some fd) = some (q * (1 / 100)))
  ∧ (∀ fd : LukeFoodRow, m.co2_override_per_kg = none → fd.kg_co2e_per_kg = none →
        fd.g_co2e_per_100g = none →
        getCo2FactorKgPerKg (some m) (some fd) = none)
  ∧ (r.is_water = false → r.is_salt = false →
        ¬ clampQ (p * nf / 100) 0 1 < MIN_SHARE_FRAC →
        env.mappings r.ingredient_core = some m →
        effWeightState m ≠ "ignore" →
        getCo2FactorKgPerKg (some m) (m.luke_foodid.bind env.foods) = none →
        ingredientStep env nf w acc (r, some p)
          = { acc with unmappedKg := acc.unmappedKg + w * clampQ (p * nf / 100) 0 1 })) := by
  refine ⟨?_, ?_, ?_, ?_, ?_⟩
  · intro hov food
    simp [getCo2FactorKgPerKg, hov]
  · intro fd hov hkg
    simp [getCo2FactorKgPerKg, hov, hkg]
  · intro fd hov hkg hg
    simp [getCo2FactorKgPerKg, hov, hkg, hg]
  · intro fd hov hkg hg
    simp [getCo2FactorKgPerKg, hov, hkg, hg]
  · intro hwat hsalt hfrac hm hws hfac
    unfold ingredientStep
    dsimp only
    rw [if_neg (by simp [hwat, hsalt]), if_neg hfrac, hm]
    dsimp only
    rw [if_neg hws, hfac]

theorem co2_factor_priority_witness :
    getCo2FactorKgPerKg (some ⟨"A", none, some "cooked", none, some 7⟩)
        (some ⟨1, some 2, some 3⟩) = some 7
  ∧ getCo2FactorKgPerKg (some ⟨"A", none, some "cooked", none, none⟩)
        (some ⟨1, some 2, some 3⟩) = some 2
  ∧ getCo2FactorKgPerKg (some ⟨"A", none, some "cooked", none, none⟩)
        (some ⟨1, none, some 3⟩) = some (3 * (1 / 100))
  ∧ getCo2FactorKgPerKg (some ⟨"A", none, some "cooked", none, none⟩)
        (some ⟨1, none, none⟩) = none
  ∧ ingredientStep envC3 1 1 ⟨0, 0, 0, 0⟩ (⟨"NOFAC", some 100, false, false⟩, some 100)
      = ⟨0, 1, 0, 0⟩ := by
  refine ⟨?_, ?_, ?_, ?_, ?_⟩
  · exact (co2_factor_priority ⟨"A", none, some "cooked", none, some 7⟩ emptyEnv 1 1
      ⟨0, 0, 0, 0⟩ ⟨"A", none, false, false⟩ 0 7).1 rfl _
  · exact (co2_factor_priority ⟨"A", none, some "cooked", none, none⟩ emptyEnv 1 1
      ⟨0, 0, 0, 0⟩ ⟨"A", none, false, false⟩ 0 2).2.1 _ rfl rfl
  · exact (co2_factor_priority ⟨"A", none, some "cooked", none, none⟩ emptyEnv 1 1
      ⟨0, 0, 0, 0⟩ ⟨"A", none, false, false⟩ 0 3).2.2.1 _ rfl rfl rfl
  · exact (co2_factor_priority ⟨"A", none, some "cooked", none, none⟩ emptyEnv 1 1
      ⟨0, 0, 0, 0⟩ ⟨"A", none, false, false⟩ 0 0).2.2.2.1 _ rfl rfl rfl
  · have h := (co2_factor_priority ⟨"NOFAC", none, some "cooked", none, none⟩ envC3 1 1
      ⟨0, 0, 0, 0⟩ ⟨"NOFAC", some 100, false, false⟩ 100 0).2.2.2.2
      rfl rfl (by decide) rfl (by decide) rfl
    rw [h]
    decide

/-- C4: for a leaf whose mapping has `weight_state = raw`, a present
positive yield converts the cooked mass to raw equivalent — the leaf is
mapped with CO2 contribution `(cooked / yield) * factor` — while a missing
or non-positive yield classifies the cooked mass unmapped. -/
theorem raw_weight_state_conversion (env : DataEnv) (nf w : ℚ) (acc : CarbonTotals)
    (r : IngredientRow) (p : ℚ) (m : MappingRow) (fac : ℚ)
    (hwat : r.is_water = false) (hsalt : r.is_salt = false)
    (hfrac : ¬ clampQ (p * nf / 100) 0 1 < MIN_SHARE_FRAC)
    (hm : env.mappings r.ingredient_core = some m)
    (hraw : effWeightState m = "raw")
    (hfac : getCo2FactorKgPerKg (some m) (m.luke_foodid.bind env.foods) = some fac) :
    ((∀ y : ℚ, m.yield_cooked_per_raw = some y → 0 < y →
        ingredientStep env nf w acc (r, some p)
          = { acc with
              co2eKg := acc.co2eKg + w * clampQ (p * nf / 100) 0 1 / y * fac,
              mappedKg := acc.mappedKg + w * clampQ (p * nf / 100) 0 1 })
  ∧ (∀ y : ℚ, m.yield_cooked_per_raw = some y → y ≤ 0 →
        ingredientStep env nf w acc (r, some p)
          = { acc with unmappedKg := acc.unmappedKg + w * clampQ (p * nf / 100) 0 1 })
  ∧ (m.yield_cooked_per_raw = none →
        ingredientStep env nf w acc (r, some p)
          = { acc with unmappedKg := acc.unmappedKg + w * clampQ (p * nf / 100) 0 1 })) := by
  have hws : effWeightState m ≠ "ignore" := by
    rw [hraw]
    decide
  refine ⟨?_, ?_, ?_⟩
  · intro y hy hypos
    unfold ingredientStep
    dsimp only
    rw [if_neg (by simp [hwat, hsalt]), if_neg hfrac, hm]
    dsimp only
    rw [if_neg hws, hfac]
    dsimp only
    rw [if_pos hraw, hy]
    dsimp only
    rw [if_pos hypos]
  · intro y hy hyneg
    unfold ingredientStep
    dsimp only
    rw [if_neg (by simp [hwat, hsalt]), if_neg hfrac, hm]
    dsimp only
    rw [if_neg hws, hfac]
    dsimp only
    rw [if_pos hraw, hy]
    dsimp only
    rw [if_neg (not_lt.mpr hyneg)]
  · intro hy
    unfold ingredientStep
    dsimp only
    rw [if_neg (by simp [hwat, hsalt]), if_neg hfrac, hm]
    dsimp only
    rw [if_neg hws, hfac]
    dsimp only
    rw [if_pos hraw, hy]

theorem raw_weight_state_conversion_witness :
    ingredientStep envC4 1 2 ⟨0, 0, 0, 0⟩ (⟨"MEAT", some 50, false, false⟩, some 50)
      = ⟨4, 0, 1, 0⟩
  ∧ ingredientStep envC4 1 2 ⟨0, 0, 0, 0⟩ (⟨"MEATBAD", some 50, false, false⟩, some 50)
      = ⟨0, 1, 0, 0⟩ := by
  constructor
  · have h := (raw_weight_state_conversion envC4 1 2 ⟨0, 0, 0, 0⟩
      ⟨"MEAT", some 50, false, false⟩ 50 ⟨"MEAT", none, some "raw", some (1 / 2), some 2⟩ 2
      rfl rfl (by decide) rfl (by decide) rfl).1 (1 / 2) rfl (by norm_num)
    rw [h]
    decide
  · have h := (raw_weight_state_conversion envC4 1 2 ⟨0, 0, 0, 0⟩
      ⟨"MEATBAD", some 50, false, false⟩ 50 ⟨"MEATBAD", none, some "raw", some 0, some 2⟩ 2
      rfl rfl (by decide) rfl (by decide) rfl).2.1 0 rfl le_rfl
    rw [h]
    decide

/-- C5: when a component's structured breakdown is not normalized
(`normFactor = 1`) and its clamped share sum `S` (with `0 < S ≤ 100`)
leaves an unallocated remainder above the 1e-9 threshold, that remainder
`w * (1 - S/100)` is added to the unmapped bucket on top of the per-leaf
loop totals — the mapped and ignored buckets are exactly the loop's, so the
remainder is neither dropped nor folded into ignored. -/
theorem unallocated_remainder_unmapped (env : DataEnv) (cid : Nat) (w : ℚ)
    (hw : 0 < w)
    (hne : (env.componentIngredients cid).isEmpty = false)
    (hpos : 0 < optShareSum ((env.componentIngredients cid).map clampedShare))
    (hnf : ingNormFactor ((env.componentIngredients cid).map clampedShare) = 1)
    (hle : optShareSum ((env.componentIngredients cid).map clampedShare) ≤ 100)
    (hbig : UNALLOC_EPS
        < w * (1 - optShareSum ((env.componentIngredients cid).map clampedShare) / 100)) :
    computeComponentCarbon env cid w
      = .ok { componentLoopTotals env 1 w (env.componentIngredients cid) with
              unmappedKg :=
                (componentLoopTotals env 1 w (env.componentIngredients cid)).unmappedKg
                  + w * (1 - optShareSum
                      ((env.componentIngredients cid).map clampedShare) / 100) } := by
  unfold computeComponentCarbon
  rw [if_neg (not_le.mpr hw), if_neg (by simp [hne]), if_neg (not_le.mpr hpos)]
  rw [if_neg (not_lt.mpr (le_trans hle (by norm_num [ING_SHARE_MAX_OVER_EPS])))]
  rw [hnf]
  have hclamp :
      clampQ (optShareSum ((env.componentIngredients cid).map clampedShare) * 1 / 100)
        0 1
      = optShareSum ((env.componentIngredients cid).map clampedShare) / 100 := by
    rw [mul_one]
    exact clampQ_of_le (div_nonneg hpos.le (by norm_num)) ((div_le_one (by norm_num)).mpr hle)
  dsimp only
  rw [hclamp, if_pos ⟨hbig, rfl⟩]

theorem unallocated_remainder_unmapped_witness :
    computeComponentCarbon envC5 6 1 = .ok ⟨0, 1, 0, 0⟩ := by
  have h := unallocated_remainder_unmapped envC5 6 1 one_pos rfl (by decide) (by decide)
    (by decide) (by decide)
  rw [h]
  decide

theorem sum_map_mul_getD (c : ℚ) :
    ∀ l : List (Option ℚ), (l.map (fun v => c * v.getD 0)).sum = c * optShareSum l
  | [] => by simp [optShareSum]
  | a :: t => by
    simp only [List.map_cons, List.sum_cons, sum_map_mul_getD c t, optShareSum_cons]
    ring

/-- C6: when all ingredient shares are present and their sum is within 5
percentage points of 100, the normalization factor is `100 / sum`, and the
rescaled shares sum to exactly 100 (the factor is what the per-leaf mass
computation multiplies each share by); when any share is missing, the
factor stays 1 — no rescaling — regardless of the sum. -/
theorem ingredient_share_rescaling (shares : List (Option ℚ)) :
    ((shares.all (·.isSome) = true →
        |optShareSum shares - 100| ≤ ING_SHARE_NORMALIZE_EPS →
        ingNormFactor shares = 100 / optShareSum shares
          ∧ (optShareSum shares ≠ 0 →
              (shares.map (fun v => ingNormFactor shares * v.getD 0)).sum = 100))
  ∧ (shares.all (·.isSome) = false → ingNormFactor shares = 1)) := by
  constructor
  · intro hall hclose
    have hnf : ingNormFactor shares = 100 / optShareSum shares := by
      unfold ingNormFactor
      rw [if_pos ⟨hall, hclose⟩]
    refine ⟨hnf, ?_⟩
    intro hS
    rw [hnf, sum_map_mul_getD]
    field_simp
  · intro hmiss
    unfold ingNormFactor
    rw [if_neg (fun hcon => by rw [hcon.1] at hmiss; cases hmiss)]

theorem ingredient_share_rescaling_witness :
    (ingNormFactor [some 48, some 48] = 100 / optShareSum [some 48, some 48]
      ∧ ([some (48:ℚ), some 48].map
          (fun v => ingNormFactor [some (48:ℚ), some 48] * v.getD 0)) = [50, 50])
  ∧ ingNormFactor [some 96, none] = 1 := by
  constructor
  · have h := (ingredient_share_rescaling [some 48, some 48]).1 (by decide) (by decide)
    exact ⟨h.1, by rw [h.1]; decide⟩
  · exact (ingredient_share_rescaling [some 96, none]).2 (by decide)

/-- C7: an ingredient leaf that is neither water nor salt and whose
normalized share fraction is below 0.10 of its component is classified
ignored — its cooked mass goes to the ignored bucket, and the mapped mass
and total CO2e are unchanged — for every environment, hence even when an
active mapping with a resolvable factor exists for its core. -/
theorem below_threshold_ignored (env : DataEnv) (nf w : ℚ) (acc : CarbonTotals)
    (r : IngredientRow) (p : ℚ)
    (hwat : r.is_water = false) (hsalt : r.is_salt = false)
    (hfrac : clampQ (p * nf / 100) 0 1 < MIN_SHARE_FRAC) :
    ingredientStep env nf w acc (r, some p)
      = { acc with ignoredKg := acc.ignoredKg + w * clampQ (p * nf / 100) 0 1 } := by
  unfold ingredientStep
  dsimp only
  rw [if_neg (by simp [hwat, hsalt]), if_pos hfrac]

theorem below_threshold_ignored_witness :
    ingredientStep envC7 1 1 ⟨0, 0, 0, 0⟩ (⟨"SUGAR", some 5, false, false⟩, some 5)
      = ⟨0, 0, 0, 1 / 20⟩ := by
  have h := below_threshold_ignored envC7 1 1 ⟨0, 0, 0, 0⟩
    ⟨"SUGAR", some 5, false, false⟩ 5 rfl rfl (by decide)
  rw [h]
  decide

/-- C8: when a dish's components all lack a provided plate share (or the
clamped shares sum to 0), the donated weight is split equally: every
component receives share `1/n`. -/
theorem equal_split_fallback (did : Nat) (comps : List DishComponentRow)
    (h0 : optShareSum (providedPlateShares comps) ≤ 0) :
    dishShares did comps
      = .ok (List.replicate comps.length (1 / (comps.length : ℚ))) := by
  unfold dishShares
  rw [if_pos h0]
  congr 1
  exact List.map_const' comps _

theorem equal_split_fallback_witness :
    dishShares 3 compsC8 = .ok [1 / 2, 1 / 2] := by
  have h := equal_split_fallback 3 compsC8 (by decide)
  rw [h]
  decide

/-- C9: a mapping whose `weight_state` is NULL or the empty string behaves
exactly like `weight_state = "ignore"` (the leaf is ignored), and any
non-empty value whose lowercasing is neither "ignore" nor "raw" is treated
as cooked: the resolved factor is applied directly to the cooked mass and
the leaf is mapped. -/
theorem weight_state_defaults (env : DataEnv) (nf w : ℚ) (acc : CarbonTotals)
    (r : IngredientRow) (p : ℚ) (m : MappingRow)
    (hwat : r.is_water = false) (hsalt : r.is_salt = false)
    (hfrac : ¬ clampQ (p * nf / 100) 0 1 < MIN_SHARE_FRAC)
    (hm : env.mappings r.ingredient_core = some m) :
    (((m.weight_state = none ∨ m.weight_state = some "") →
        effWeightState m = "ignore"
          ∧ ingredientStep env nf w acc (r, some p)
            = { acc with ignoredKg := acc.ignoredKg + w * clampQ (p * nf / 100) 0 1 })
  ∧ (∀ s, m.weight_state = some s → s ≠ "" →
        lowerString s ≠ "ignore" → lowerString s ≠ "raw" →
        ∀ fac : ℚ, getCo2FactorKgPerKg (some m) (m.luke_foodid.bind env.foods) = some fac →
        ingredientStep env nf w acc (r, some p)
          = { acc with
              co2eKg := acc.co2eKg + w * clampQ (p * nf / 100) 0 1 * fac,
              mappedKg := acc.mappedKg + w * clampQ (p * nf / 100) 0 1 })) := by
  constructor
  · intro hnull
    have hig : effWeightState m = "ignore" := by
      unfold effWeightState
      rcases hnull with hnull | hnull
      · rw [hnull]
        decide
      · rw [hnull]
        decide
    refine ⟨hig, ?_⟩
    unfold ingredientStep
    dsimp only
    rw [if_neg (by simp [hwat, hsalt]), if_neg hfrac, hm]
    dsimp only
    rw [if_pos hig]
  · intro s hs hsne hsig hsraw fac hfac
    have hws : effWeightState m = lowerString s := by
      unfold effWeightState
      rw [hs]
      dsimp only
      rw [if_neg hsne]
    unfold ingredientStep
    dsimp only
    rw [if_neg (by simp [hwat, hsalt]), if_neg hfrac, hm]
    dsimp only
    rw [hws, if_neg hsig, hfac]
    dsimp only
    rw [if_neg hsraw]

theorem weight_state_defaults_witness :
    ingredientStep envC9 1 1 ⟨0, 0, 0, 0⟩ (⟨"NOSTATE", some 100, false, false⟩, some 100)
      = ⟨0, 0, 0, 1⟩
  ∧ ingredientStep envC9 1 1 ⟨0, 0, 0, 0⟩ (⟨"EMPTYSTATE", some 100, false, false⟩, some 100)
      = ⟨0, 0, 0, 1⟩
  ∧ ingredientStep envC9 1 1 ⟨0, 0, 0, 0⟩ (⟨"BOILED", some 100, false, false⟩, some 100)
      = ⟨3, 0, 1, 0⟩ := by
  refine ⟨?_, ?_, ?_⟩
  · have h := ((weight_state_defaults envC9 1 1 ⟨0, 0, 0, 0⟩
      ⟨"NOSTATE", some 100, false, false⟩ 100 ⟨"NOSTATE", none, none, none, some 3⟩
      rfl rfl (by decide) rfl).1 (Or.inl rfl)).2
    rw [h]
    decide
  · have h := ((weight_state_defaults envC9 1 1 ⟨0, 0, 0, 0⟩
      ⟨"EMPTYSTATE", some 100, false, false⟩ 100 ⟨"EMPTYSTATE", none, some "", none, some 3⟩
      rfl rfl (by decide) rfl).1 (Or.inr rfl)).2
    rw [h]
    decide
  · have h := (weight_state_defaults envC9 1 1 ⟨0, 0, 0, 0⟩
      ⟨"BOILED", some 100, false, false⟩ 100 ⟨"BOILED", none, some "Boiled", none, some 3⟩
      rfl rfl (by decide) rfl).2 "Boiled" rfl (by decide) (by decide) (by decide) 3 rfl
    rw [h]
    decide

/-- C10: a component that has ingredient rows whose clamped shares sum to
at most 0 is processed entirely through the component-name fallback, so
(depending on the name's mapping) its whole mass can end up mapped or
ignored instead of being reported as unallocated unmapped remainder. -/
theorem zero_share_fallback (env : DataEnv) (cid : Nat) (w : ℚ)
    (hw : 0 < w)
    (hne : (env.componentIngredients cid).isEmpty = false)
    (hsum : optShareSum ((env.componentIngredients cid).map clampedShare) ≤ 0) :
    computeComponentCarbon env cid w
      = .ok (computeComponentFallbackCarbonFromName env cid w) := by
  unfold computeComponentCarbon
  rw [if_neg (not_le.mpr hw), if_neg (by simp [hne]), if_pos hsum]

theorem zero_share_fallback_witness :
    computeComponentCarbon envC10 5 1 = .ok ⟨3, 0, 1, 0⟩ := by
  have h := zero_share_fallback envC10 5 1 one_pos rfl (by decide)
  rw [h]
  decide
